import Mathlib

/-!
Shallow embedding of the CSV-consolidation pipeline of
`src/Ongoing/datasuite-download-center/server.js`.

The archive reader (`unzipper`) and the CSV tokenizer (`csv-parser`) are
external libraries; here an archive entry is observed at that interface:
a one-time header list (absent when the parser errors before the header
line), the sequence of parsed rows emitted before end-of-stream or before
the error, and a flag recording whether the parser ended with an `error`
event instead of `end`.  A parsed row is the JS object csv-parser builds,
modelled as an association list from header name to string value; an
absent key is JS `undefined`, modelled as `Option.none`.  The consolidated
writer is observed as the sequence of records the handler writes to the
`csv-stringify` stream.
-/

namespace DDC

/-- A parsed CSV row: mapping from header name to string value. -/
abbrev RawRow := List (String × String)

/-- A record written to the consolidated output (same shape as a row). -/
abbrev Rec := List (String × String)

/-- Lowercase one ASCII character, as `String.prototype.toLowerCase` does
on the ASCII range relevant to file names. -/
def charLower (c : Char) : Char :=
  if 65 ≤ c.toNat && c.toNat ≤ 90 then Char.ofNat (c.toNat + 32) else c

/-- `s.toLowerCase()` on ASCII strings. -/
def strLower (s : String) : String :=
  ⟨s.data.map charLower⟩

/-- Whether `pat` is a leading segment of `l`. -/
def listLeads : List Char → List Char → Bool
  | [], _ => true
  | _ :: _, [] => false
  | p :: ps, c :: cs => p == c && listLeads ps cs

/-- `s.endsWith(t)`. -/
def strEndsWith (s t : String) : Bool :=
  listLeads t.data.reverse s.data.reverse

/-- Split a character list on `/`. -/
def splitSegs : List Char → List (List Char)
  | [] => [[]]
  | c :: cs =>
    match splitSegs cs with
    | [] => [[]]
    | seg :: rest =>
      if c == '/' then [] :: seg :: rest else (c :: seg) :: rest

/-- JS property access `row[k]`: `none` models `undefined`. First match wins
(csv-parser row objects have unique keys). -/
def jsGet : RawRow → String → Option String
  | [], _ => none
  | (k, v) :: rest, key => if k = key then some v else jsGet rest key

/-- The configured drop-set, `DROP_HEADERS` in server.js (lines 49-60). -/
def DROP_HEADERS : List String :=
  ["Number TO", "Status", "High Value", "Sender ID", "Sender Name",
   "Sender Type", "Sender",
   "Receiver Name",
   "Station Type", "Current Station", "TO Order", "Quantity",
   "TO Direction", "Volumetric Weight", "Weight",
   "Line Hual Trip Number", "Operator", "Create Time", "Complete Time",
   "Driver Scan Time", "Journey Type", "Remark", "Receive Status",
   "TO Remark"]

/-- `headers.filter(h => !DROP_HEADERS.has(h))` (server.js line 120). -/
def canonicalOf (headers : List String) : List String :=
  headers.filter (fun h => !(DROP_HEADERS.contains h))

/-- `Object.fromEntries(canonicalHeaders.map(h => [h, h]))` (line 122): the
manually written header record. -/
def headerRecord (canonical : List String) : Rec :=
  canonical.map (fun h => (h, h))

/-- The projected output row (lines 132-135):
`outRow[h] = row[h] !== undefined ? row[h] : ''` for each canonical `h`. -/
def buildOutRow (canonical : List String) (row : RawRow) : Rec :=
  canonical.map (fun h => (h, (jsGet row h).getD ""))

/-- The `pick` helper (lines 140-145): first candidate key present with a
value that is neither `undefined` nor the empty string; else `''`. -/
def pick (row : RawRow) : List String → String
  | [] => ""
  | k :: ks =>
    match jsGet row k with
    | some v => if v = "" then pick row ks else v
    | none => pick row ks

/-- JS `a || b` on a possibly-undefined string `a`: `b` when `a` is
`undefined` or falsy (the empty string). -/
def jsOr (a : Option String) (b : String) : String :=
  match a with
  | some v => if v = "" then b else v
  | none => b

/-- Alias list for the current-station field (line 148). -/
def CURRENT_STATION_KEYS : List String :=
  ["Current Station", "current station", "current_station"]

/-- Alias list for the receiver-type field (line 149, duplicate included
as in the source). -/
def RECEIVER_TYPE_KEYS : List String :=
  ["Receiver type", "Receiver Type", "receiver type", "receiver_type",
   "Receiver type"]

/-- Alias list for the journey-type field (line 150). -/
def JOURNEY_TYPE_KEYS : List String :=
  ["Journey Type", "Journey type", "journey type"]

/-- Alias list for the receive-status field (line 151). -/
def RECEIVE_STATUS_KEYS : List String :=
  ["Receive Status", "Receive status", "receive status"]

/-- The four distinct-value collectors (lines 73-78).  A JS `Set` is
modelled as a duplicate-free list in insertion order, which is the order
`Array.from` observes. -/
structure DistinctSets where
  currentStation : List String
  receiverType : List String
  journeyType : List String
  receiveStatus : List String
deriving DecidableEq

/-- `Set.add`: inserts at the end unless already present. -/
def setAdd (s : List String) (v : String) : List String :=
  if v ∈ s then s else s ++ [v]

/-- `if (v) set.add(v)` (lines 153-156): a conditional insert guarded by
JS truthiness of the string `v`. -/
def addIf (s : List String) (v : String) : List String :=
  if v ≠ "" then setAdd s v else s

/-- Job-scoped mutable state of one upload (lines 72-84 and the writes). -/
structure JobState where
  canonical : Option (List String)
  wroteHeader : Bool
  written : List Rec
  preview : List Rec
  distinct : DistinctSets
deriving DecidableEq

def initState : JobState :=
  { canonical := none, wroteHeader := false, written := [], preview := [],
    distinct := ⟨[], [], [], []⟩ }

/-- `PREVIEW_LIMIT` (line 81). -/
def PREVIEW_LIMIT : Nat := 50

/-- The `headers` event handler (lines 116-125): on the first CSV the
canonical headers are computed and the header record written; later
header events change nothing. -/
def processHeaders (st : JobState) (headers : List String) : JobState :=
  match st.canonical with
  | none =>
    let canonical := canonicalOf headers
    { st with canonical := some canonical,
              written := st.written ++ [headerRecord canonical],
              wroteHeader := true }
  | some _ => st

/-- The `data` event handler (lines 127-163), parametrised by the preview
cap so that the cap's non-interference can be stated. -/
def processRow (previewLimit : Nat) (st : JobState) (row : RawRow) :
    JobState :=
  match st.canonical with
  | none => st
  | some canonical =>
    let outRow := buildOutRow canonical row
    let currentStationVal :=
      jsOr (jsGet outRow "Current Station") (pick row CURRENT_STATION_KEYS)
    let receiverTypeVal := pick row RECEIVER_TYPE_KEYS
    let journeyTypeVal := pick row JOURNEY_TYPE_KEYS
    let receiveStatusVal := pick row RECEIVE_STATUS_KEYS
    let d : DistinctSets :=
      { currentStation := addIf st.distinct.currentStation currentStationVal,
        receiverType := addIf st.distinct.receiverType receiverTypeVal,
        journeyType := addIf st.distinct.journeyType journeyTypeVal,
        receiveStatus := addIf st.distinct.receiveStatus receiveStatusVal }
    let preview := if st.preview.length < previewLimit then
        st.preview ++ [outRow]
      else st.preview
    { st with distinct := d, preview := preview,
              written := st.written ++ [outRow] }

/-- One archive entry at the csv-parser interface: its one-time header
list (`none` when the parser errors before emitting it), the rows emitted
before `end` or before the `error` event, and whether an `error` event
ended the entry. -/
structure Entry where
  headers : Option (List String)
  rows : List RawRow
  parseError : Bool
deriving DecidableEq

/-- Drain one entry (the body of the per-entry Promise, lines 113-170):
the header event fires first when present, then each row. -/
def processEntry (previewLimit : Nat) (st : JobState) (e : Entry) :
    JobState :=
  let st1 :=
    match e.headers with
    | some hs => processHeaders st hs
    | none => st
  e.rows.foldl (processRow previewLimit) st1

/-- The sequential per-entry loop (lines 108-171).  A parse error rejects
the per-entry Promise; the `await` rethrows, so the loop stops at the
first erroring entry.  Returns the state reached and whether an entry
error escaped. -/
def runEntries (previewLimit : Nat) (st : JobState) :
    List Entry → JobState × Bool
  | [] => (st, false)
  | e :: es =>
    let st1 := processEntry previewLimit st e
    if e.parseError then (st1, true) else runEntries previewLimit st1 es

/-- One file of the opened zip directory (`directory.files`). -/
structure ZipFile where
  path : String
  type : String
  content : Entry
deriving DecidableEq

/-- The filter of line 92:
`f.path && f.type === 'File' && f.path.toLowerCase().endsWith('.csv')`. -/
def isCsvEntry (f : ZipFile) : Bool :=
  f.path ≠ "" && f.type == "File" && strEndsWith (strLower f.path) ".csv"

/-- `toArrayLimit` (line 183): `Array.from(s)` then drop undefined, null
and empty values, then `slice(0, limit)`.  In this model set members are
strings, so only the empty-string filter can fire. -/
def toArrayLimit (s : List String) (limit : Nat) : List String :=
  (s.filter (fun x => x ≠ "")).take limit

/-- The JSON payload of a successful upload (lines 185-194). -/
structure JobResult where
  preview : List Rec
  currentStation : List String
  receiverType : List String
  journeyType : List String
  receiveStatus : List String
deriving DecidableEq

/-- The three ways the upload handler can answer. -/
inductive UploadResponse where
  | success (r : JobResult)
  | emptyArchiveError
  | entryParseError
deriving DecidableEq

/-- One physical line of the consolidated CSV file: its cells in column
order. -/
abbrev Line := List String

/-- How csv-stringify renders one record on a fixed column list: the
record's value for each column, empty when the key is absent. -/
def recordValues (columns : List String) (r : Rec) : Line :=
  columns.map (fun c => (jsGet r c).getD "")

/-- The file content `stringify({ header: true })` (line 102) produces
from the sequence of records written to it: the columns are discovered
from the keys of the first record, a header line of those column names
is emitted first, then every record is rendered on those columns.
Nothing is emitted when no record is ever written. -/
def stringifyOut (written : List Rec) : List Line :=
  match written with
  | [] => []
  | r :: rest =>
    let columns := r.map Prod.fst
    columns :: (r :: rest).map (recordValues columns)

/-- Observable outcome of one upload: the HTTP response and the file at
`consolidatedPath` (`none` when no file was ever created there; the
`catch` block of lines 196-201 unlinks only the uploaded zip, so a
created file persists through a failure). -/
structure UploadOutcome where
  response : UploadResponse
  outputFile : Option (List Line)
deriving DecidableEq

/-- The whole `POST /api/upload` job (lines 63-201) on an opened zip
directory. -/
def runUpload (files : List ZipFile) : UploadOutcome :=
  let csvEntries := files.filter isCsvEntry
  if csvEntries.isEmpty then
    { response := .emptyArchiveError, outputFile := none }
  else
    let result := runEntries PREVIEW_LIMIT initState (csvEntries.map (·.content))
    if result.2 then
      { response := .entryParseError,
        outputFile := some (stringifyOut result.1.written) }
    else
      { response := .success
          { preview := result.1.preview,
            currentStation := toArrayLimit result.1.distinct.currentStation 1000,
            receiverType := toArrayLimit result.1.distinct.receiverType 1000,
            journeyType := toArrayLimit result.1.distinct.journeyType 1000,
            receiveStatus := toArrayLimit result.1.distinct.receiveStatus 1000 },
        outputFile := some (stringifyOut result.1.written) }

/-- Node `path.basename` on POSIX paths: the last nonempty
slash-separated segment, or the empty string when there is none. -/
def basename (p : String) : String :=
  match ((splitSegs p.data).filter (fun s => s ≠ [])).getLast? with
  | some s => ⟨s⟩
  | none => ""

/-- Node `path.join(dir, seg)` for a normalized absolute `dir` (as a
segment list) and a single slash-free segment: `.` and the empty string
keep the directory, `..` pops one level, anything else descends. -/
def joinOne (dir : List String) (seg : String) : List String :=
  if seg = "" then dir
  else if seg = "." then dir
  else if seg = ".." then dir.dropLast
  else dir ++ [seg]

/-- Containment of a resolved path in a directory: the directory's
segments lead the path's. -/
def isUnder : List String → List String → Bool
  | [], _ => true
  | _ :: _, [] => false
  | a :: as, b :: bs => a == b && isUnder as bs

/-- A file the model filesystem holds under the data directory's root:
its resolved path and its parsed rows. -/
structure FsFile where
  path : List String
  rows : List RawRow
deriving DecidableEq

/-- Responses of `GET /api/preview`. -/
inductive PreviewResponse where
  | badRequest
  | notFound
  | ok (rows : List RawRow)
deriving DecidableEq

/-- The `GET /api/preview` handler (lines 208-225): reject a missing
`file` param, resolve `path.join(DATA_DIR, path.basename(file))`, 404
when nothing exists there, else stream the file and keep rows while
below `limit`. -/
def previewHandler (dataDir : List String) (fsFiles : List FsFile)
    (file : String) (limit : Nat) : PreviewResponse :=
  if file = "" then .badRequest
  else
    let abs := joinOne dataDir (basename file)
    match fsFiles.find? (fun f => f.path == abs) with
    | none => .notFound
    | some f => .ok (f.rows.take limit)

/-! ### Preservation lemmas for the canonical header -/

theorem processRow_canonical (L : Nat) (st : JobState) (row : RawRow) :
    (processRow L st row).canonical = st.canonical := by
  unfold processRow
  cases h : st.canonical <;> simp [h]

theorem foldRows_canonical (L : Nat) (rows : List RawRow) (st : JobState) :
    (rows.foldl (processRow L) st).canonical = st.canonical := by
  induction rows generalizing st with
  | nil => rfl
  | cons r rs ih => simpa [List.foldl_cons, processRow_canonical] using ih (processRow L st r)

theorem processHeaders_canonical_some (st : JobState) (hs : List String)
    (c : List String) (h : st.canonical = some c) :
    processHeaders st hs = st := by
  unfold processHeaders
  rw [h]

theorem processEntry_canonical_some (L : Nat) (st : JobState) (e : Entry)
    (c : List String) (h : st.canonical = some c) :
    (processEntry L st e).canonical = some c := by
  unfold processEntry
  cases he : e.headers with
  | none => simp [he, foldRows_canonical, h]
  | some hs => simp [he, foldRows_canonical, processHeaders_canonical_some st hs c h, h]

theorem runEntries_canonical_some (L : Nat) (es : List Entry) (st : JobState)
    (c : List String) (h : st.canonical = some c) :
    ((runEntries L st es).1).canonical = some c := by
  induction es generalizing st with
  | nil => simpa [runEntries] using h
  | cons e es ih =>
    unfold runEntries
    by_cases hp : e.parseError = true
    · simpa [hp] using processEntry_canonical_some L st e c h
    · simp only [hp]
      simp only [Bool.false_eq_true, if_false]
      exact ih (processEntry L st e) (processEntry_canonical_some L st e c h)

theorem processHeaders_none (st : JobState) (hs : List String)
    (h : st.canonical = none) :
    processHeaders st hs =
      { st with canonical := some (canonicalOf hs),
                written := st.written ++ [headerRecord (canonicalOf hs)],
                wroteHeader := true } := by
  unfold processHeaders
  rw [h]

/-- C1: when the first CSV entry of a job emits header list `H`, the
canonical header computed by the job is exactly `H` filtered by the
drop-set (`canonicalOf`, which removes every drop-set member and keeps
`H`'s relative order), and it stays that way no matter what any later
entry contains. -/
theorem canonical_from_first_entry (e : Entry) (es : List Entry)
    (H : List String) (h : e.headers = some H) :
    ((runEntries PREVIEW_LIMIT initState (e :: es)).1).canonical
      = some (canonicalOf H) := by
  have hst1 : (processEntry PREVIEW_LIMIT initState e).canonical
      = some (canonicalOf H) := by
    unfold processEntry
    rw [h]
    show (List.foldl (processRow PREVIEW_LIMIT)
      (processHeaders initState H) e.rows).canonical = _
    rw [processHeaders_none initState H rfl]
    simp [foldRows_canonical]
  unfold runEntries
  by_cases hp : e.parseError = true
  · simpa [hp] using hst1
  · simp only [hp, Bool.false_eq_true, if_false]
    exact runEntries_canonical_some PREVIEW_LIMIT es _ _ hst1

/-- Witness for C1 at a concrete job: first entry headers
`["A", "Status", "B"]` (with `"Status"` in the drop-set), a later entry
with different headers; the canonical header is `["A", "B"]`. -/
theorem canonical_from_first_entry_witness :
    ((runEntries PREVIEW_LIMIT initState
        [⟨some ["A", "Status", "B"], [], false⟩,
         ⟨some ["Z", "Q"], [[("Z", "1")]], false⟩]).1).canonical
      = some ["A", "B"] := by
  have h := canonical_from_first_entry
    ⟨some ["A", "Status", "B"], [], false⟩
    [⟨some ["Z", "Q"], [[("Z", "1")]], false⟩]
    ["A", "Status", "B"] rfl
  exact h.trans (by decide)

/-! ### Structure of the written consolidated output -/

theorem processRow_written_some (L : Nat) (st : JobState) (row : RawRow)
    (C : List String) (h : st.canonical = some C) :
    (processRow L st row).written = st.written ++ [buildOutRow C row] := by
  unfold processRow
  rw [h]

theorem foldRows_written (L : Nat) (rows : List RawRow) (st : JobState)
    (C : List String) (h : st.canonical = some C) :
    (rows.foldl (processRow L) st).written
      = st.written ++ rows.map (buildOutRow C) := by
  induction rows generalizing st with
  | nil => simp
  | cons r rs ih =>
    have hc : (processRow L st r).canonical = some C := by
      rw [processRow_canonical, h]
    calc (List.foldl (processRow L) (processRow L st r) rs).written
        = (processRow L st r).written ++ rs.map (buildOutRow C) :=
          ih (processRow L st r) hc
      _ = st.written ++ (r :: rs).map (buildOutRow C) := by
          rw [processRow_written_some L st r C h]; simp

theorem processEntry_written_some (L : Nat) (st : JobState) (e : Entry)
    (C : List String) (h : st.canonical = some C) :
    (processEntry L st e).written
      = st.written ++ e.rows.map (buildOutRow C) := by
  unfold processEntry
  cases he : e.headers with
  | none =>
    show (List.foldl (processRow L) st e.rows).written = _
    exact foldRows_written L e.rows st C h
  | some hs =>
    show (List.foldl (processRow L) (processHeaders st hs) e.rows).written = _
    rw [processHeaders_canonical_some st hs C h]
    exact foldRows_written L e.rows st C h

theorem runEntries_written_some (L : Nat) (es : List Entry) (st : JobState)
    (C : List String) (h : st.canonical = some C) :
    ∃ raws : List RawRow, ((runEntries L st es).1).written
      = st.written ++ raws.map (buildOutRow C) := by
  induction es generalizing st with
  | nil => exact ⟨[], by simp [runEntries]⟩
  | cons e es ih =>
    unfold runEntries
    by_cases hp : e.parseError = true
    · exact ⟨e.rows, by simp [hp, processEntry_written_some L st e C h]⟩
    · simp only [hp, Bool.false_eq_true, if_false]
      obtain ⟨raws, hraws⟩ :=
        ih (processEntry L st e) (processEntry_canonical_some L st e C h)
      refine ⟨e.rows ++ raws, ?_⟩
      rw [hraws, processEntry_written_some L st e C h]
      simp

/-- On any job whose first entry emits headers `H`, the records written
to the stringifier are the canonical header record first, followed only
by projected data rows. -/
theorem written_structure (e : Entry) (es : List Entry)
    (H : List String) (h : e.headers = some H) :
    ∃ raws : List RawRow,
      ((runEntries PREVIEW_LIMIT initState (e :: es)).1).written
        = headerRecord (canonicalOf H)
            :: raws.map (buildOutRow (canonicalOf H)) := by
  have hst1c : (processEntry PREVIEW_LIMIT initState e).canonical
      = some (canonicalOf H) := by
    unfold processEntry
    rw [h]
    show (List.foldl (processRow PREVIEW_LIMIT)
      (processHeaders initState H) e.rows).canonical = _
    rw [processHeaders_none initState H rfl]
    simp [foldRows_canonical]
  have hst1w : (processEntry PREVIEW_LIMIT initState e).written
      = headerRecord (canonicalOf H)
          :: e.rows.map (buildOutRow (canonicalOf H)) := by
    unfold processEntry
    rw [h]
    show (List.foldl (processRow PREVIEW_LIMIT)
      (processHeaders initState H) e.rows).written = _
    rw [foldRows_written PREVIEW_LIMIT e.rows _ (canonicalOf H)
      (by rw [processHeaders_none initState H rfl])]
    rw [processHeaders_none initState H rfl]
    simp [initState]
  unfold runEntries
  by_cases hp : e.parseError = true
  · exact ⟨e.rows, by simpa [hp] using hst1w⟩
  · simp only [hp, Bool.false_eq_true, if_false]
    obtain ⟨raws, hraws⟩ := runEntries_written_some PREVIEW_LIMIT es
      (processEntry PREVIEW_LIMIT initState e) (canonicalOf H) hst1c
    exact ⟨e.rows ++ raws, by rw [hraws, hst1w]; simp⟩

theorem headerRecord_keys (C : List String) :
    (headerRecord C).map Prod.fst = C := by
  induction C with
  | nil => rfl
  | cons a t ih => simpa [headerRecord] using ih

theorem jsGet_headerRecord (C : List String) (c : String) (hc : c ∈ C) :
    jsGet (headerRecord C) c = some c := by
  induction C with
  | nil => exact absurd hc (List.not_mem_nil c)
  | cons a t ih =>
    show (if a = c then some a else jsGet (headerRecord t) c) = some c
    by_cases hac : a = c
    · rw [if_pos hac, hac]
    · rw [if_neg hac]
      exact ih (List.mem_of_ne_of_mem (fun h => hac h.symm) hc)

theorem recordValues_of_jsGet (C : List String) (r : Rec)
    (h : ∀ c ∈ C, jsGet r c = some c) : recordValues C r = C := by
  induction C with
  | nil => rfl
  | cons a t ih =>
    show ((jsGet r a).getD "") :: recordValues t r = a :: t
    rw [h a (List.mem_cons_self a t),
      ih fun c hc => h c (List.mem_cons_of_mem a hc)]
    rfl

theorem recordValues_headerRecord (C : List String) :
    recordValues C (headerRecord C) = C :=
  recordValues_of_jsGet C (headerRecord C) (jsGet_headerRecord C)

theorem stringifyOut_header (C : List String) (rest : List Rec) :
    stringifyOut (headerRecord C :: rest)
      = C :: C :: rest.map (recordValues C) := by
  show ((headerRecord C).map Prod.fst)
      :: (headerRecord C :: rest).map
          (recordValues ((headerRecord C).map Prod.fst)) = _
  rw [headerRecord_keys, List.map_cons, recordValues_headerRecord]

/-- C4 counterexample: a successful one-entry job whose file holds the
canonical header line twice, not exactly once — `stringify` was created
with `header: true` (line 102), so the file opens with the auto-header
it derives from the keys of the first record written, and that first
record is the manually written header record (line 122), rendered as a
second identical line. -/
theorem header_twice_counterexample :
    (runUpload [⟨"one.csv", "File",
        ⟨some ["A", "Status", "B"], [[("A", "1"), ("B", "2")]], false⟩⟩]).outputFile
        = some [canonicalOf ["A", "Status", "B"],
                canonicalOf ["A", "Status", "B"], ["1", "2"]] ∧
      ((runUpload [⟨"one.csv", "File",
          ⟨some ["A", "Status", "B"], [[("A", "1"), ("B", "2")]], false⟩⟩]).outputFile.getD
            []).count (canonicalOf ["A", "Status", "B"]) = 2 := by
  decide

/-- C4 (amended): on any job whose first entry emits headers `H`, the
consolidated file opens with the canonical header twice — the
auto-header line the stringifier derives from the first written
record's keys, then the manually written header record — both produced
at the first header event and neither re-written when later entries are
processed; every subsequent line is a projected data row rendered on
the canonical columns. -/
theorem header_written_twice (e : Entry) (es : List Entry)
    (H : List String) (h : e.headers = some H) :
    ∃ raws : List RawRow,
      stringifyOut ((runEntries PREVIEW_LIMIT initState (e :: es)).1).written
        = canonicalOf H :: canonicalOf H
            :: raws.map (fun r =>
                recordValues (canonicalOf H) (buildOutRow (canonicalOf H) r)) := by
  obtain ⟨raws, hw⟩ := written_structure e es H h
  refine ⟨raws, ?_⟩
  rw [hw, stringifyOut_header, List.map_map]
  rfl

/-- Witness for the amended C4 at a concrete two-entry job. -/
theorem header_written_twice_witness :
    ∃ raws : List RawRow,
      stringifyOut ((runEntries PREVIEW_LIMIT initState
          [⟨some ["A", "Status", "B"], [[("A", "1"), ("B", "2")]], false⟩,
           ⟨some ["B", "A"], [[("B", "3")]], false⟩]).1).written
        = canonicalOf ["A", "Status", "B"] :: canonicalOf ["A", "Status", "B"]
            :: raws.map (fun r =>
                recordValues (canonicalOf ["A", "Status", "B"])
                  (buildOutRow (canonicalOf ["A", "Status", "B"]) r)) :=
  header_written_twice
    ⟨some ["A", "Status", "B"], [[("A", "1"), ("B", "2")]], false⟩
    [⟨some ["B", "A"], [[("B", "3")]], false⟩]
    ["A", "Status", "B"] rfl

/-! ### Row projection -/

/-- C5: row projection is a pure function of the raw row and the
canonical header: the projected row's key sequence is exactly the
canonical header (independent of the source file's own header order or
extra columns), and each key is mapped to the raw row's value when that
key is present (non-`undefined`), and to the empty string otherwise. -/
theorem buildOutRow_spec (C : List String) (row : RawRow) :
    (buildOutRow C row).map Prod.fst = C ∧
      ∀ p ∈ buildOutRow C row, p.2 = (jsGet row p.1).getD "" := by
  constructor
  · induction C with
    | nil => rfl
    | cons h t ih => simpa [buildOutRow] using ih
  · intro p hp
    unfold buildOutRow at hp
    obtain ⟨h, _, rfl⟩ := List.mem_map.mp hp
    rfl

/-- Witness for C5: a concrete projection onto `["A", "B"]` of a row
that lacks `"B"` and carries an extra column. -/
theorem buildOutRow_spec_witness :
    (buildOutRow ["A", "B"] [("X", "9"), ("A", "1")]).map Prod.fst
        = ["A", "B"] ∧
      ("B", "") ∈ buildOutRow ["A", "B"] [("X", "9"), ("A", "1")] ∧
      (("B", "") : String × String).2
        = (jsGet [("X", "9"), ("A", "1")] "B").getD "" := by
  refine ⟨(buildOutRow_spec ["A", "B"] [("X", "9"), ("A", "1")]).1,
    by decide, ?_⟩
  exact (buildOutRow_spec ["A", "B"] [("X", "9"), ("A", "1")]).2
    ("B", "") (by decide)

/-! ### Empty archive -/

/-- C6: when the filtered CSV-entry sequence of the archive is empty the
job answers with the no-CSV-files error and no consolidated file is ever
created. -/
theorem empty_archive_no_output (files : List ZipFile)
    (h : files.filter isCsvEntry = []) :
    runUpload files = { response := .emptyArchiveError, outputFile := none } := by
  simp [runUpload, h]

/-- Witness for C6: an archive holding one directory entry and one
non-CSV regular file. -/
theorem empty_archive_no_output_witness :
    runUpload [⟨"docs/", "Directory", ⟨none, [], false⟩⟩,
               ⟨"readme.txt", "File", ⟨some ["A"], [[("A", "1")]], false⟩⟩]
      = { response := .emptyArchiveError, outputFile := none } :=
  empty_archive_no_output _ (by decide)

/-! ### Current-station fallback -/

theorem jsGet_eq_none (l : RawRow) (k : String)
    (h : ∀ p ∈ l, p.1 ≠ k) : jsGet l k = none := by
  induction l with
  | nil => rfl
  | cons p rest ih =>
    unfold jsGet
    rw [if_neg (h p (List.mem_cons_self p rest))]
    exact ih fun q hq => h q (List.mem_cons_of_mem p hq)

theorem currentStation_not_canonical (headers : List String) :
    ∀ h ∈ canonicalOf headers, h ≠ "Current Station" := by
  intro h hh
  obtain ⟨-, hkeep⟩ := List.mem_filter.mp hh
  intro heq
  subst heq
  simp only [Bool.not_eq_true'] at hkeep
  exact absurd hkeep (by decide)

/-- C10: the asymmetric current-station resolution
`outRow['Current Station'] || pick(row, aliases)` collapses to the plain
raw-row alias resolution `pick(row, aliases)` used for the other three
semantic fields, because `'Current Station'` is in the drop-set and
hence never a key of the projected row. -/
theorem currentStation_fallback_equiv (headers : List String) (row : RawRow) :
    jsOr (jsGet (buildOutRow (canonicalOf headers) row) "Current Station")
        (pick row CURRENT_STATION_KEYS)
      = pick row CURRENT_STATION_KEYS := by
  have hnone : jsGet (buildOutRow (canonicalOf headers) row)
      "Current Station" = none := by
    apply jsGet_eq_none
    intro p hp
    obtain ⟨h, hh, rfl⟩ := List.mem_map.mp hp
    exact currentStation_not_canonical headers h hh
  rw [hnone]
  rfl

/-! ### Distinct-value sets -/

/-- No member of any of the four distinct-value sets is the empty
string. -/
def distinctOK (d : DistinctSets) : Prop :=
  (∀ x ∈ d.currentStation, x ≠ "") ∧ (∀ x ∈ d.receiverType, x ≠ "") ∧
    (∀ x ∈ d.journeyType, x ≠ "") ∧ (∀ x ∈ d.receiveStatus, x ≠ "")

theorem addIf_mem (s : List String) (v x : String)
    (h : x ∈ addIf s v) : x ∈ s ∨ (x = v ∧ v ≠ "") := by
  unfold addIf setAdd at h
  by_cases hv : v = ""
  · simp [hv] at h
    exact Or.inl h
  · simp only [ne_eq, hv, not_false_iff, if_true] at h
    by_cases hm : v ∈ s
    · rw [if_pos hm] at h
      exact Or.inl h
    · rw [if_neg hm] at h
      rcases List.mem_append.mp h with h1 | h2
      · exact Or.inl h1
      · exact Or.inr ⟨List.mem_singleton.mp h2, hv⟩

theorem addIf_ok (s : List String) (v : String)
    (h : ∀ x ∈ s, x ≠ "") : ∀ x ∈ addIf s v, x ≠ "" := by
  intro x hx
  rcases addIf_mem s v x hx with hs | ⟨rfl, hv⟩
  · exact h x hs
  · exact hv

theorem processRow_distinctOK (L : Nat) (st : JobState) (row : RawRow)
    (h : distinctOK st.distinct) :
    distinctOK (processRow L st row).distinct := by
  obtain ⟨h1, h2, h3, h4⟩ := h
  unfold processRow
  cases hc : st.canonical with
  | none => exact ⟨h1, h2, h3, h4⟩
  | some c =>
    exact ⟨addIf_ok _ _ h1, addIf_ok _ _ h2, addIf_ok _ _ h3, addIf_ok _ _ h4⟩

theorem foldRows_distinctOK (L : Nat) (rows : List RawRow) (st : JobState)
    (h : distinctOK st.distinct) :
    distinctOK ((rows.foldl (processRow L) st)).distinct := by
  induction rows generalizing st with
  | nil => exact h
  | cons r rs ih => exact ih (processRow L st r) (processRow_distinctOK L st r h)

theorem processHeaders_distinct (st : JobState) (hs : List String) :
    (processHeaders st hs).distinct = st.distinct := by
  unfold processHeaders
  cases st.canonical <;> rfl

theorem processEntry_distinctOK (L : Nat) (st : JobState) (e : Entry)
    (h : distinctOK st.distinct) :
    distinctOK (processEntry L st e).distinct := by
  unfold processEntry
  cases he : e.headers with
  | none => exact foldRows_distinctOK L e.rows st h
  | some hs =>
    show distinctOK ((e.rows.foldl (processRow L) (processHeaders st hs))).distinct
    exact foldRows_distinctOK L e.rows _ (by rw [processHeaders_distinct]; exact h)

theorem runEntries_distinctOK (L : Nat) (es : List Entry) (st : JobState)
    (h : distinctOK st.distinct) :
    distinctOK ((runEntries L st es).1).distinct := by
  induction es generalizing st with
  | nil => exact h
  | cons e es ih =>
    unfold runEntries
    by_cases hp : e.parseError = true
    · simpa [hp] using processEntry_distinctOK L st e h
    · simp only [hp, Bool.false_eq_true, if_false]
      exact ih (processEntry L st e) (processEntry_distinctOK L st e h)

theorem toArrayLimit_length (s : List String) (limit : Nat) :
    (toArrayLimit s limit).length ≤ limit := by
  unfold toArrayLimit
  rw [List.length_take]
  exact min_le_left _ _

/-- C7: across any job, none of the four distinct-value sets ever holds
the empty string (and, values being strings of the row, never an
undefined value), and each of the four arrays materialized in a
successful response is capped at 1000 elements. -/
theorem distinct_never_empty_and_capped (es : List Entry)
    (files : List ZipFile) :
    distinctOK ((runEntries PREVIEW_LIMIT initState es).1).distinct ∧
      ∀ r, (runUpload files).response = .success r →
        r.currentStation.length ≤ 1000 ∧ r.receiverType.length ≤ 1000 ∧
          r.journeyType.length ≤ 1000 ∧ r.receiveStatus.length ≤ 1000 := by
  constructor
  · exact runEntries_distinctOK PREVIEW_LIMIT es initState
      ⟨by simp [initState], by simp [initState], by simp [initState],
       by simp [initState]⟩
  · intro r hr
    unfold runUpload at hr
    simp only [UploadResponse.success.injEq] at hr
    split at hr
    · exact absurd hr (by simp)
    · split at hr
      · exact absurd hr (by simp)
      · simp only [UploadResponse.success.injEq] at hr
        rw [← hr]
        exact ⟨toArrayLimit_length _ _, toArrayLimit_length _ _,
          toArrayLimit_length _ _, toArrayLimit_length _ _⟩

/-- Witness for C7 at a concrete job: one CSV entry whose row carries a
current-station value; the resulting set holds only that non-empty value
and the response arrays are within the cap. -/
theorem distinct_never_empty_and_capped_witness :
    distinctOK ((runEntries PREVIEW_LIMIT initState
        [⟨some ["A", "Current Station"],
          [[("A", "1"), ("Current Station", "ST1")]], false⟩]).1).distinct ∧
      (({ preview := [[("A", "1")]], currentStation := ["ST1"],
          receiverType := [], journeyType := [],
          receiveStatus := [] } : JobResult).currentStation.length ≤ 1000 ∧
        (({ preview := [[("A", "1")]], currentStation := ["ST1"],
            receiverType := [], journeyType := [],
            receiveStatus := [] } : JobResult).receiverType.length ≤ 1000 ∧
          ({ preview := [[("A", "1")]], currentStation := ["ST1"],
             receiverType := [], journeyType := [],
             receiveStatus := [] } : JobResult).journeyType.length ≤ 1000 ∧
            ({ preview := [[("A", "1")]], currentStation := ["ST1"],
               receiverType := [], journeyType := [],
               receiveStatus := [] } : JobResult).receiveStatus.length ≤ 1000)) := by
  refine ⟨(distinct_never_empty_and_capped
      [⟨some ["A", "Current Station"],
        [[("A", "1"), ("Current Station", "ST1")]], false⟩]
      [⟨"s.csv", "File",
        ⟨some ["A", "Current Station"],
          [[("A", "1"), ("Current Station", "ST1")]], false⟩⟩]).1, ?_⟩
  have h := (distinct_never_empty_and_capped
      [⟨some ["A", "Current Station"],
        [[("A", "1"), ("Current Station", "ST1")]], false⟩]
      [⟨"s.csv", "File",
        ⟨some ["A", "Current Station"],
          [[("A", "1"), ("Current Station", "ST1")]], false⟩⟩]).2
      { preview := [[("A", "1")]], currentStation := ["ST1"],
        receiverType := [], journeyType := [], receiveStatus := [] }
      (by decide)
  exact ⟨h.1, h.2.1, h.2.2.1, h.2.2.2⟩

/-! ### Preview cap -/

/-- Equality of all job state except the preview list: the canonical
header, the header-written flag, the written output and the distinct
sets. -/
def Agree (s1 s2 : JobState) : Prop :=
  s1.canonical = s2.canonical ∧ s1.wroteHeader = s2.wroteHeader ∧
    s1.written = s2.written ∧ s1.distinct = s2.distinct

theorem processHeaders_agree (s1 s2 : JobState) (hs : List String)
    (h : Agree s1 s2) : Agree (processHeaders s1 hs) (processHeaders s2 hs) := by
  obtain ⟨h1, h2, h3, h4⟩ := h
  unfold processHeaders
  rw [h1]
  cases s2.canonical with
  | none => exact ⟨rfl, rfl, by simp [h3], h4⟩
  | some c => exact ⟨h1, h2, h3, h4⟩

theorem processRow_agree (L1 L2 : Nat) (s1 s2 : JobState) (row : RawRow)
    (h : Agree s1 s2) :
    Agree (processRow L1 s1 row) (processRow L2 s2 row) := by
  obtain ⟨h1, h2, h3, h4⟩ := h
  unfold processRow
  rw [h1]
  cases s2.canonical with
  | none => exact ⟨h1, h2, h3, h4⟩
  | some c => exact ⟨rfl, h2, by rw [h3], by rw [h4]⟩

theorem foldRows_agree (L1 L2 : Nat) (rows : List RawRow) (s1 s2 : JobState)
    (h : Agree s1 s2) :
    Agree (rows.foldl (processRow L1) s1) (rows.foldl (processRow L2) s2) := by
  induction rows generalizing s1 s2 with
  | nil => exact h
  | cons r rs ih => exact ih _ _ (processRow_agree L1 L2 s1 s2 r h)

theorem processEntry_agree (L1 L2 : Nat) (s1 s2 : JobState) (e : Entry)
    (h : Agree s1 s2) :
    Agree (processEntry L1 s1 e) (processEntry L2 s2 e) := by
  unfold processEntry
  cases he : e.headers with
  | none => exact foldRows_agree L1 L2 e.rows s1 s2 h
  | some hs =>
    exact foldRows_agree L1 L2 e.rows _ _ (processHeaders_agree s1 s2 hs h)

theorem runEntries_agree (L1 L2 : Nat) (es : List Entry) (s1 s2 : JobState)
    (h : Agree s1 s2) :
    Agree ((runEntries L1 s1 es).1) ((runEntries L2 s2 es).1) ∧
      (runEntries L1 s1 es).2 = (runEntries L2 s2 es).2 := by
  induction es generalizing s1 s2 with
  | nil => exact ⟨h, rfl⟩
  | cons e es ih =>
    unfold runEntries
    by_cases hp : e.parseError = true
    · refine ⟨?_, ?_⟩
      · simpa [hp] using processEntry_agree L1 L2 s1 s2 e h
      · simp [hp]
    · simp only [hp, Bool.false_eq_true, if_false]
      exact ih _ _ (processEntry_agree L1 L2 s1 s2 e h)

theorem processHeaders_preview (st : JobState) (hs : List String) :
    (processHeaders st hs).preview = st.preview := by
  unfold processHeaders
  cases st.canonical <;> rfl

theorem processRow_preview_le (L : Nat) (st : JobState) (row : RawRow)
    (h : st.preview.length ≤ L) :
    (processRow L st row).preview.length ≤ L := by
  unfold processRow
  cases st.canonical with
  | none => exact h
  | some c =>
    by_cases hlt : st.preview.length < L
    · simp only [hlt, if_true]
      simp only [List.length_append, List.length_singleton]
      omega
    · simp only [hlt, if_false]
      exact h

theorem processRow_preview_frozen (L : Nat) (st : JobState) (row : RawRow)
    (h : L ≤ st.preview.length) :
    (processRow L st row).preview = st.preview := by
  unfold processRow
  cases st.canonical with
  | none => rfl
  | some c => simp [Nat.not_lt.mpr h]

theorem foldRows_preview_le (L : Nat) (rows : List RawRow) (st : JobState)
    (h : st.preview.length ≤ L) :
    (rows.foldl (processRow L) st).preview.length ≤ L := by
  induction rows generalizing st with
  | nil => exact h
  | cons r rs ih => exact ih _ (processRow_preview_le L st r h)

theorem foldRows_preview_frozen (L : Nat) (rows : List RawRow) (st : JobState)
    (h : L ≤ st.preview.length) :
    (rows.foldl (processRow L) st).preview = st.preview := by
  induction rows generalizing st with
  | nil => rfl
  | cons r rs ih =>
    have hr := processRow_preview_frozen L st r h
    rw [List.foldl_cons, ih (processRow L st r) (by rw [hr]; exact h), hr]

theorem processEntry_preview_le (L : Nat) (st : JobState) (e : Entry)
    (h : st.preview.length ≤ L) :
    (processEntry L st e).preview.length ≤ L := by
  unfold processEntry
  cases he : e.headers with
  | none => exact foldRows_preview_le L e.rows st h
  | some hs =>
    exact foldRows_preview_le L e.rows _ (by rw [processHeaders_preview]; exact h)

theorem processEntry_preview_frozen (L : Nat) (st : JobState) (e : Entry)
    (h : L ≤ st.preview.length) :
    (processEntry L st e).preview = st.preview := by
  unfold processEntry
  cases he : e.headers with
  | none => exact foldRows_preview_frozen L e.rows st h
  | some hs =>
    rw [foldRows_preview_frozen L e.rows _
        (by rw [processHeaders_preview]; exact h),
      processHeaders_preview]

theorem runEntries_preview_le (L : Nat) (es : List Entry) (st : JobState)
    (h : st.preview.length ≤ L) :
    ((runEntries L st es).1).preview.length ≤ L := by
  induction es generalizing st with
  | nil => exact h
  | cons e es ih =>
    unfold runEntries
    by_cases hp : e.parseError = true
    · simpa [hp] using processEntry_preview_le L st e h
    · simp only [hp, Bool.false_eq_true, if_false]
      exact ih _ (processEntry_preview_le L st e h)

theorem runEntries_preview_frozen (L : Nat) (es : List Entry) (st : JobState)
    (h : L ≤ st.preview.length) :
    ((runEntries L st es).1).preview = st.preview := by
  induction es generalizing st with
  | nil => rfl
  | cons e es ih =>
    unfold runEntries
    by_cases hp : e.parseError = true
    · simpa [hp] using processEntry_preview_frozen L st e h
    · simp only [hp, Bool.false_eq_true, if_false]
      rw [ih _ (by rw [processEntry_preview_frozen L st e h]; exact h),
        processEntry_preview_frozen L st e h]

/-- C8: the preview of any job never exceeds the 50-row cap; once a
state's preview has reached the cap no further entry appends to it for
the remainder of the job; and the written consolidated output and the
distinct sets are independent of the preview cap altogether. -/
theorem preview_capped_and_inert (es : List Entry) :
    ((runEntries PREVIEW_LIMIT initState es).1).preview.length ≤ PREVIEW_LIMIT ∧
      (∀ (st : JobState) (es2 : List Entry), PREVIEW_LIMIT ≤ st.preview.length →
        ((runEntries PREVIEW_LIMIT st es2).1).preview = st.preview) ∧
      ∀ L1 L2 : Nat,
        Agree ((runEntries L1 initState es).1) ((runEntries L2 initState es).1) :=
  ⟨runEntries_preview_le PREVIEW_LIMIT es initState (by simp [initState]),
   fun st es2 h => runEntries_preview_frozen PREVIEW_LIMIT es2 st h,
   fun L1 L2 =>
     (runEntries_agree L1 L2 es initState initState ⟨rfl, rfl, rfl, rfl⟩).1⟩

/-- Witness for C8: a 60-row entry previews exactly 50 rows; a state
already at the cap is left untouched by a further entry; and the output
written under caps 0 and 50 agrees. -/
theorem preview_capped_and_inert_witness :
    ((runEntries PREVIEW_LIMIT initState
        [⟨some ["A"], List.replicate 60 [("A", "v")], false⟩]).1).preview.length
        ≤ PREVIEW_LIMIT ∧
      ((runEntries PREVIEW_LIMIT
          { canonical := some ["A"], wroteHeader := true, written := [],
            preview := List.replicate 50 [("A", "v")],
            distinct := ⟨[], [], [], []⟩ }
          [⟨some ["A"], [[("A", "w")]], false⟩]).1).preview
        = List.replicate 50 [("A", "v")] ∧
      Agree ((runEntries 0 initState
          [⟨some ["A"], List.replicate 60 [("A", "v")], false⟩]).1)
        ((runEntries 50 initState
          [⟨some ["A"], List.replicate 60 [("A", "v")], false⟩]).1) :=
  ⟨(preview_capped_and_inert
      [⟨some ["A"], List.replicate 60 [("A", "v")], false⟩]).1,
   (preview_capped_and_inert
      [⟨some ["A"], List.replicate 60 [("A", "v")], false⟩]).2.1
     { canonical := some ["A"], wroteHeader := true, written := [],
       preview := List.replicate 50 [("A", "v")],
       distinct := ⟨[], [], [], []⟩ }
     [⟨some ["A"], [[("A", "w")]], false⟩] (by decide),
   (preview_capped_and_inert
      [⟨some ["A"], List.replicate 60 [("A", "v")], false⟩]).2.2 0 50⟩

/-! ### Entry-level parse errors -/

theorem runEntries_errored (L : Nat) (es : List Entry) (st : JobState)
    (h : ∃ e ∈ es, e.parseError = true) :
    (runEntries L st es).2 = true := by
  induction es generalizing st with
  | nil =>
    obtain ⟨e, he, -⟩ := h
    exact absurd he (List.not_mem_nil e)
  | cons e es ih =>
    unfold runEntries
    by_cases hp : e.parseError = true
    · simp [hp]
    · simp only [hp, Bool.false_eq_true, if_false]
      apply ih
      obtain ⟨f, hf, hfe⟩ := h
      rcases List.mem_cons.mp hf with rfl | hmem
      · exact absurd hfe hp
      · exact ⟨f, hmem, hfe⟩

/-- C2 counterexample: an archive of two CSV entries whose first entry is
malformed.  The claim says the job still succeeds and the consolidated
output contains all rows of the other entry; in fact the per-entry
Promise rejection reaches the job-level catch, the job answers with the
error response, and the good entry's row `("A","1"),("B","2")` is absent
from the consolidated output. -/
theorem parse_error_claim_counterexample :
    (runUpload
        [⟨"bad.csv", "File", ⟨some ["A", "B"], [[("A", "3"), ("B", "4")]], true⟩⟩,
         ⟨"good.csv", "File", ⟨some ["A", "B"], [[("A", "1"), ("B", "2")]], false⟩⟩]).response
        = .entryParseError ∧
      (runUpload
        [⟨"bad.csv", "File", ⟨some ["A", "B"], [[("A", "3"), ("B", "4")]], true⟩⟩,
         ⟨"good.csv", "File", ⟨some ["A", "B"], [[("A", "1"), ("B", "2")]], false⟩⟩]).outputFile
        = some [["A", "B"], ["A", "B"], ["3", "4"]] := by
  decide

/-- C2 (amended): a parse error in any CSV entry is not absorbed at entry
level: the rejection propagates through the per-entry `await` to the
job-level catch and the whole job reports the parse-error response
instead of succeeding. -/
theorem entry_parse_error_aborts_job (files : List ZipFile)
    (h : ∃ f ∈ files.filter isCsvEntry, f.content.parseError = true) :
    (runUpload files).response = .entryParseError := by
  obtain ⟨f, hf, hfe⟩ := h
  have hne : (files.filter isCsvEntry).isEmpty = false := by
    cases hl : files.filter isCsvEntry with
    | nil => rw [hl] at hf; exact absurd hf (List.not_mem_nil f)
    | cons a l => rfl
  have herr : (runEntries PREVIEW_LIMIT initState
      ((files.filter isCsvEntry).map (·.content))).2 = true :=
    runEntries_errored _ _ _ ⟨f.content, List.mem_map_of_mem _ hf, hfe⟩
  unfold runUpload
  simp [hne, herr]

/-- Witness for the amended C2 at a one-entry archive whose only entry is
malformed. -/
theorem entry_parse_error_aborts_job_witness :
    (runUpload [⟨"oops.csv", "File", ⟨some ["X"], [], true⟩⟩]).response
      = .entryParseError :=
  entry_parse_error_aborts_job
    [⟨"oops.csv", "File", ⟨some ["X"], [], true⟩⟩] (by decide)

/-- C3 counterexample: a job that fails after the header record and one
data row were already written.  The claim says the partial file at the
output location is removed before the error is reported; in fact the
catch block removes only the uploaded zip, and the half-written
consolidated file (header plus one row) is still present. -/
theorem truncated_output_claim_counterexample :
    (runUpload
        [⟨"trunc.csv", "File", ⟨some ["A", "B"], [[("A", "5"), ("B", "6")]], true⟩⟩]).response
        = .entryParseError ∧
      (runUpload
        [⟨"trunc.csv", "File", ⟨some ["A", "B"], [[("A", "5"), ("B", "6")]], true⟩⟩]).outputFile
        = some [["A", "B"], ["A", "B"], ["5", "6"]] := by
  decide

/-- C3 (amended): when a job terminates in the failed state after output
writing has begun, the partially written consolidated file is left at
the published output location exactly as written so far — the error path
removes only the uploaded archive, never `consolidatedPath`. -/
theorem failed_job_keeps_halfwritten_file (files : List ZipFile)
    (h : (runUpload files).response = .entryParseError) :
    (runUpload files).outputFile
      = some (stringifyOut ((runEntries PREVIEW_LIMIT initState
          ((files.filter isCsvEntry).map (·.content))).1).written) := by
  by_cases hne : (files.filter isCsvEntry).isEmpty = true
  · exfalso
    unfold runUpload at h
    simp [hne] at h
  · by_cases herr : (runEntries PREVIEW_LIMIT initState
        ((files.filter isCsvEntry).map (·.content))).2 = true
    · unfold runUpload
      simp [hne, herr]
    · exfalso
      unfold runUpload at h
      simp [hne, herr] at h

/-- Witness for the amended C3: the concrete failing job's surviving file
content, obtained through the theorem. -/
theorem failed_job_keeps_halfwritten_file_witness :
    (runUpload [⟨"cut.csv", "File", ⟨some ["A"], [[("A", "7")]], true⟩⟩]).outputFile
      = some (stringifyOut ((runEntries PREVIEW_LIMIT initState
          (([⟨"cut.csv", "File", ⟨some ["A"], [[("A", "7")]], true⟩⟩].filter
            isCsvEntry).map (·.content))).1).written) :=
  failed_job_keeps_halfwritten_file
    [⟨"cut.csv", "File", ⟨some ["A"], [[("A", "7")]], true⟩⟩] (by decide)

/-! ### Secondary preview path resolution -/

theorem isUnder_refl (l : List String) : isUnder l l = true := by
  induction l with
  | nil => rfl
  | cons a t ih => simp [isUnder, ih]

theorem isUnder_append (l m : List String) : isUnder l (l ++ m) = true := by
  induction l with
  | nil => rfl
  | cons a t ih => simp [isUnder, ih]

/-- C9 counterexample: for the input filename `".."` the handler's
resolution `path.join(DATA_DIR, path.basename(file))` yields the parent
of the output directory — `basename` passes `".."` through unchanged and
`join` normalizes it away — so the resolved path does not lie inside the
output directory. -/
theorem preview_traversal_counterexample :
    basename ".." = ".." ∧
      joinOne ["srv", "app", "data"] (basename "..") = ["srv", "app"] ∧
      isUnder ["srv", "app", "data"]
          (joinOne ["srv", "app", "data"] (basename "..")) = false := by
  decide

/-- C9 (amended): for every filename whose basename is not `".."` the
resolved path lies inside the output directory (basename strips every
directory component, so separators and embedded `".."` segments cannot
escape; the sole escaping input is a basename of `".."`, which resolves
to the parent directory); when nothing exists at the resolved path the
operation reports not-found, and a successful answer carries at most
`limit` parsed rows. -/
theorem preview_resolution_safe_unless_dotdot (dataDir : List String)
    (fsFiles : List FsFile) (file : String) (limit : Nat) :
    (basename file ≠ ".." →
        isUnder dataDir (joinOne dataDir (basename file)) = true) ∧
      (file ≠ "" →
        fsFiles.find? (fun f => f.path == joinOne dataDir (basename file)) = none →
        previewHandler dataDir fsFiles file limit = .notFound) ∧
      ∀ rows, previewHandler dataDir fsFiles file limit = .ok rows →
        rows.length ≤ limit := by
  refine ⟨?_, ?_, ?_⟩
  · intro hne
    unfold joinOne
    by_cases h0 : basename file = ""
    · simp [h0, isUnder_refl]
    · by_cases h1 : basename file = "."
      · simp [h0, h1, isUnder_refl]
      · simp [h0, h1, hne, isUnder_append]
  · intro hf hfind
    simp only [previewHandler]
    rw [if_neg hf, hfind]
  · intro rows hr
    simp only [previewHandler] at hr
    split at hr
    · exact absurd hr (by simp)
    · split at hr
      · exact absurd hr (by simp)
      · simp only [PreviewResponse.ok.injEq] at hr
        rw [← hr, List.length_take]
        exact min_le_left _ _

/-- Witness for the amended C9: a safe filename resolves under the data
directory, a missing file reports not-found, and a two-row read respects
the limit 2. -/
theorem preview_resolution_witness :
    isUnder ["srv", "data"]
        (joinOne ["srv", "data"] (basename "safe.csv")) = true ∧
      previewHandler ["srv", "data"] [] "ghost.csv" 5 = .notFound ∧
      ([[("A", "1")], [("A", "2")]] : List RawRow).length ≤ 2 :=
  ⟨(preview_resolution_safe_unless_dotdot ["srv", "data"] [] "safe.csv" 5).1
      (by decide),
   (preview_resolution_safe_unless_dotdot ["srv", "data"] [] "ghost.csv" 5).2.1
      (by decide) (by decide),
   (preview_resolution_safe_unless_dotdot ["srv", "data"]
      [⟨["srv", "data", "f.csv"],
        [[("A", "1")], [("A", "2")], [("A", "3")]]⟩] "f.csv" 2).2.2
      [[("A", "1")], [("A", "2")]] (by decide)⟩

end DDC
